import Mathlib

/-!
Shallow embedding of the chat streaming / thinking-timeline subsystem of the
hostSefgh-react repository, together with proofs of the spec claims.

The definitions mirror:
- `src/react/src/providers/ChatProvider.tsx` (the `chatReducer` and its actions),
- `src/unnamed/part_001` (`chatEvents` data contracts, `ChatService`),
- `src/react/src/hooks/useStreamSSE.ts` (`useStreamSSE`, `useSimulatedStream`),
- `src/unnamed/part_002` (`useIncrementalTyping`).

JavaScript timestamps (`Date.now()`) are passed in explicitly as `Nat`
parameters; optional fields become `Option`; `undefined`-vs-value JS
semantics (`x || y`, `x ?? false`) are translated pointwise.
-/

/-- Status of a thinking step (`ThoughtStepStatus` in chatEvents). -/
inductive ThoughtStepStatus
  | pending
  | active
  | done
  | error
  deriving DecidableEq, Repr

/-- Identifier of a thinking step (`ThoughtStepId` in chatEvents). -/
inductive ThoughtStepId
  | understand
  | plan
  | retrieve
  | tool
  | compose
  | finalize
  deriving DecidableEq, Repr

/-- One thinking step (`ThoughtStep` in chatEvents). -/
structure ThoughtStep where
  id : ThoughtStepId
  label : String
  status : ThoughtStepStatus
  startedAt : Option Nat := none
  endedAt : Option Nat := none
  toolName : Option String := none
  note : Option String := none
  deriving DecidableEq, Repr

/-- Thinking-timeline state (`ChatThinkingState` in chatEvents). -/
structure ChatThinkingState where
  visible : Bool
  canCancel : Bool
  steps : List ThoughtStep
  activeStep : Option ThoughtStepId
  deriving DecidableEq, Repr

/-- One unit of streamed text (`StreamChunk` in chatEvents). -/
structure StreamChunk where
  id : String
  delta : String
  done : Option Bool := none
  error : Option String := none
  deriving DecidableEq, Repr

/-- Streaming-session state (`StreamingState` in chatEvents). -/
structure StreamingState where
  isStreaming : Bool
  messageId : Option String := none
  content : String
  error : Option String := none
  done : Bool
  deriving DecidableEq, Repr

/-- The fixed default step list (`DEFAULT_THINKING_STEPS` in chatEvents). -/
def DEFAULT_THINKING_STEPS : List ThoughtStep :=
  [ { id := .understand, label := "Understanding request", status := .pending },
    { id := .plan, label := "Planning response", status := .pending },
    { id := .retrieve, label := "Searching knowledge", status := .pending },
    { id := .compose, label := "Composing answer", status := .pending },
    { id := .finalize, label := "Finalizing", status := .pending } ]

/-- Combined reducer state (`ChatState` in ChatProvider). -/
structure ChatState where
  thinking : ChatThinkingState
  streaming : StreamingState
  deriving DecidableEq, Repr

/-- Actions of the reducer (`ChatAction` in ChatProvider). -/
inductive ChatAction
  | SET_THINKING_VISIBLE (visible : Bool)
  | SET_CAN_CANCEL (canCancel : Bool)
  | START_STEP (id : ThoughtStepId) (label : Option String) (toolName : Option String)
  | COMPLETE_STEP (id : ThoughtStepId)
  | FAIL_STEP (id : ThoughtStepId) (note : Option String)
  | RESET_THINKING
  | START_STREAMING (messageId : String)
  | APPEND_CHUNK (chunk : StreamChunk)
  | FINISH_STREAMING
  | ERROR_STREAMING (error : String)
  | RESET_STREAMING
  deriving DecidableEq, Repr

/-- Initial state of the reducer (`initialState` in ChatProvider). -/
def initialChatState : ChatState :=
  { thinking :=
      { visible := false
        canCancel := false
        steps := DEFAULT_THINKING_STEPS
        activeStep := none }
    streaming :=
      { isStreaming := false
        content := ""
        done := false } }

/-- JS `label || step.label`: the empty string is falsy. -/
def pickLabel (label : Option String) (fallback : String) : String :=
  match label with
  | some l => if l = "" then fallback else l
  | none => fallback

/-- The reducer (`chatReducer` in ChatProvider). `now` stands for `Date.now()`
at the moment the action is processed. -/
def chatReducer (now : Nat) (state : ChatState) (action : ChatAction) : ChatState :=
  match action with
  | .SET_THINKING_VISIBLE visible =>
    { state with thinking := { state.thinking with visible := visible } }
  | .SET_CAN_CANCEL canCancel =>
    { state with thinking := { state.thinking with canCancel := canCancel } }
  | .START_STEP id label toolName =>
    { state with thinking :=
        { state.thinking with
          activeStep := some id
          steps := state.thinking.steps.map fun step =>
            if step.id = id then
              { step with
                status := .active
                startedAt := some now
                label := pickLabel label step.label
                toolName := toolName }
            else step } }
  | .COMPLETE_STEP id =>
    { state with thinking :=
        { state.thinking with
          steps := state.thinking.steps.map fun step =>
            if step.id = id then
              { step with status := .done, endedAt := some now }
            else step } }
  | .FAIL_STEP id note =>
    { state with thinking :=
        { state.thinking with
          steps := state.thinking.steps.map fun step =>
            if step.id = id then
              { step with status := .error, endedAt := some now, note := note }
            else step } }
  | .RESET_THINKING =>
    { state with thinking :=
        { initialChatState.thinking with steps := DEFAULT_THINKING_STEPS } }
  | .START_STREAMING messageId =>
    { state with streaming :=
        { isStreaming := true
          messageId := some messageId
          content := ""
          done := false } }
  | .APPEND_CHUNK chunk =>
    { state with streaming :=
        { state.streaming with
          content := state.streaming.content ++ chunk.delta
          done := chunk.done.getD false
          error := chunk.error } }
  | .FINISH_STREAMING =>
    { state with streaming :=
        { state.streaming with isStreaming := false, done := true } }
  | .ERROR_STREAMING e =>
    { state with streaming :=
        { state.streaming with isStreaming := false, error := some e, done := true } }
  | .RESET_STREAMING =>
    { state with streaming := initialChatState.streaming }

/-- Dispatching a timed sequence of actions through the reducer. -/
def runChat (state : ChatState) : List (Nat × ChatAction) → ChatState
  | [] => state
  | (t, a) :: rest => runChat (chatReducer t state a) rest

/-- Turning a timed chunk sequence into the APPEND_CHUNK dispatches it produces. -/
def appendActs (chunks : List (Nat × StreamChunk)) : List (Nat × ChatAction) :=
  chunks.map fun p => (p.1, ChatAction.APPEND_CHUNK p.2)

lemma string_foldl_append (l : List String) :
    ∀ x y : String, l.foldl (· ++ ·) (x ++ y) = x ++ l.foldl (· ++ ·) y := by
  induction l with
  | nil => intro x y; rfl
  | cons d ds ih =>
    intro x y
    simp only [List.foldl_cons]
    rw [String.append_assoc, ih]

lemma string_join_cons (a : String) (l : List String) :
    String.join (a :: l) = a ++ String.join l := by
  show (a :: l).foldl (· ++ ·) "" = a ++ l.foldl (· ++ ·) ""
  simp only [List.foldl_cons]
  have h : ("" : String) ++ a = a ++ "" := by simp
  rw [show ("" : String) ++ a = a ++ "" from h, string_foldl_append]

lemma runChat_appendActs_content (chunks : List (Nat × StreamChunk)) :
    ∀ s : ChatState,
      (runChat s (appendActs chunks)).streaming.content
        = s.streaming.content ++ String.join (chunks.map fun p => p.2.delta) := by
  induction chunks with
  | nil =>
    intro s
    simp [appendActs, runChat, String.join]
  | cons c rest ih =>
    intro s
    simp only [appendActs, List.map_cons, runChat]
    rw [show (List.map (fun p => (p.1, ChatAction.APPEND_CHUNK p.2)) rest) = appendActs rest from rfl]
    rw [ih, string_join_cons]
    simp [chatReducer, String.append_assoc]

lemma runChat_appendActs_done (body : List (Nat × StreamChunk)) (lastC : Nat × StreamChunk) :
    ∀ s : ChatState,
      (runChat s (appendActs (body ++ [lastC]))).streaming.done
        = lastC.2.done.getD false := by
  induction body with
  | nil =>
    intro s
    simp [appendActs, runChat, chatReducer]
  | cons c rest ih =>
    intro s
    simp only [List.cons_append, appendActs, List.map_cons, runChat]
    exact ih _

lemma runChat_appendActs_isStreaming (chunks : List (Nat × StreamChunk)) :
    ∀ s : ChatState,
      (runChat s (appendActs chunks)).streaming.isStreaming
        = s.streaming.isStreaming := by
  induction chunks with
  | nil => intro s; simp [appendActs, runChat]
  | cons c rest ih =>
    intro s
    simp only [appendActs, List.map_cons, runChat]
    rw [show (List.map (fun p => (p.1, ChatAction.APPEND_CHUNK p.2)) rest) = appendActs rest from rfl]
    rw [ih]
    simp [chatReducer]

/-- C1: dispatching `startStreaming(messageId)` and then `appendChunk` for each
chunk of a sequence sharing that message id, in which exactly the last chunk has
`done = true`, leaves the streaming content equal to the concatenation of all
the chunks' `delta` values, with `done = true` after the last chunk. -/
theorem streaming_content_is_delta_concat
    (s : ChatState) (mid : String) (t0 : Nat)
    (body : List (Nat × StreamChunk)) (lastC : Nat × StreamChunk)
    (hid : ∀ p ∈ body ++ [lastC], (p.2).id = mid)
    (hbody : ∀ p ∈ body, (p.2).done ≠ some true)
    (hlast : (lastC.2).done = some true) :
    let final := runChat s ((t0, ChatAction.START_STREAMING mid) :: appendActs (body ++ [lastC]))
    final.streaming.content
        = String.join ((body ++ [lastC]).map fun p => p.2.delta)
      ∧ final.streaming.done = true := by
  intro final
  have hstart :
      final = runChat (chatReducer t0 s (ChatAction.START_STREAMING mid)) (appendActs (body ++ [lastC])) := rfl
  constructor
  · rw [hstart, runChat_appendActs_content]
    simp [chatReducer]
  · rw [hstart, runChat_appendActs_done, hlast]
    rfl

/-- Witness for C1 at a concrete two-chunk stream. -/
theorem streaming_content_is_delta_concat_witness :
    let body := [(1, ({ id := "m1", delta := "hello", done := some false } : StreamChunk))]
    let lastC := (2, ({ id := "m1", delta := " world", done := some true } : StreamChunk))
    let final := runChat initialChatState
      ((0, ChatAction.START_STREAMING "m1") :: appendActs (body ++ [lastC]))
    final.streaming.content = String.join (((body ++ [lastC])).map fun p => p.2.delta)
      ∧ final.streaming.done = true :=
  streaming_content_is_delta_concat initialChatState "m1" 0 _ _
    (by decide) (by decide) (by decide)

/-- Boolean check of the claimed invariant: if `activeStep` is set, every step
in the list bearing that id has status `active`. -/
def checkActiveStep (s : ChatState) : Bool :=
  match s.thinking.activeStep with
  | none => true
  | some id => s.thinking.steps.all fun st => st.id != id || st.status == ThoughtStepStatus.active

/-- Propositional form of the claimed invariant. -/
def ActiveStepOk (s : ChatState) : Prop :=
  ∀ st ∈ s.thinking.steps, s.thinking.activeStep = some st.id → st.status = .active

/-- Guard on a single action: `COMPLETE_STEP`/`FAIL_STEP` must not target the
id that is currently the `activeStep`. -/
def actionGuard (s : ChatState) (a : ChatAction) : Bool :=
  match a with
  | .COMPLETE_STEP id => s.thinking.activeStep != some id
  | .FAIL_STEP id _ => s.thinking.activeStep != some id
  | _ => true

/-- Guard on action traces: every dispatched action satisfies `actionGuard` in
the state it is dispatched from. -/
def goodTraceB : ChatState → List (Nat × ChatAction) → Bool
  | _, [] => true
  | s, (t, a) :: rest => actionGuard s a && goodTraceB (chatReducer t s a) rest

lemma checkActiveStep_iff (s : ChatState) :
    checkActiveStep s = true ↔ ActiveStepOk s := by
  unfold checkActiveStep ActiveStepOk
  cases h : s.thinking.activeStep with
  | none =>
    simp only [true_iff]
    intro st _ hact
    exact absurd hact (by simp)
  | some a =>
    rw [List.all_eq_true]
    constructor
    · intro hall st hmem hact
      have ha : a = st.id := by injection hact
      have := hall st hmem
      simp only [Bool.or_eq_true, bne_iff_ne, beq_iff_eq] at this
      rcases this with hne | hac
      · exact absurd ha.symm hne
      · exact hac
    · intro hinv st hmem
      simp only [Bool.or_eq_true, bne_iff_ne, beq_iff_eq]
      by_cases heq : st.id = a
      · refine Or.inr (hinv st hmem ?_)
        rw [heq]
      · exact Or.inl heq

lemma activeStepOk_reducer (t : Nat) (s : ChatState) (a : ChatAction)
    (hs : ActiveStepOk s) (hg : actionGuard s a = true) :
    ActiveStepOk (chatReducer t s a) := by
  cases a with
  | SET_THINKING_VISIBLE v => exact fun st hmem hact => hs st hmem hact
  | SET_CAN_CANCEL v => exact fun st hmem hact => hs st hmem hact
  | START_STEP sid label toolName =>
    intro st hmem hact
    simp only [chatReducer] at hmem hact
    rcases List.mem_map.mp hmem with ⟨y, _, hy⟩
    by_cases hcase : y.id = sid
    · rw [if_pos hcase] at hy
      subst hy
      rfl
    · rw [if_neg hcase] at hy
      subst hy
      have hinj : sid = y.id := by injection hact
      exact absurd hinj.symm hcase
  | COMPLETE_STEP cid =>
    have hg' : s.thinking.activeStep ≠ some cid := by
      simpa [actionGuard] using hg
    intro st hmem hact
    simp only [chatReducer] at hmem hact
    rcases List.mem_map.mp hmem with ⟨y, hymem, hy⟩
    by_cases hcase : y.id = cid
    · rw [if_pos hcase] at hy
      have hid : st.id = cid := by rw [← hy]; exact hcase
      rw [hid] at hact
      exact absurd hact hg'
    · rw [if_neg hcase] at hy
      subst hy
      exact hs y hymem hact
  | FAIL_STEP fid note =>
    have hg' : s.thinking.activeStep ≠ some fid := by
      simpa [actionGuard] using hg
    intro st hmem hact
    simp only [chatReducer] at hmem hact
    rcases List.mem_map.mp hmem with ⟨y, hymem, hy⟩
    by_cases hcase : y.id = fid
    · rw [if_pos hcase] at hy
      have hid : st.id = fid := by rw [← hy]; exact hcase
      rw [hid] at hact
      exact absurd hact hg'
    · rw [if_neg hcase] at hy
      subst hy
      exact hs y hymem hact
  | RESET_THINKING =>
    intro st hmem hact
    simp only [chatReducer, initialChatState] at hact
    exact absurd hact (by simp)
  | START_STREAMING mid => exact fun st hmem hact => hs st hmem hact
  | APPEND_CHUNK c => exact fun st hmem hact => hs st hmem hact
  | FINISH_STREAMING => exact fun st hmem hact => hs st hmem hact
  | ERROR_STREAMING e => exact fun st hmem hact => hs st hmem hact
  | RESET_STREAMING => exact fun st hmem hact => hs st hmem hact

lemma activeStepOk_runChat :
    ∀ (acts : List (Nat × ChatAction)) (s : ChatState),
      ActiveStepOk s → goodTraceB s acts = true →
      ActiveStepOk (runChat s acts) := by
  intro acts
  induction acts with
  | nil => intro s hs _; exact hs
  | cons p rest ih =>
    intro s hs hg
    obtain ⟨t, a⟩ := p
    simp only [goodTraceB, Bool.and_eq_true] at hg
    exact ih _ (activeStepOk_reducer t s a hs hg.1) hg.2

/-- C2 counterexample: after `startStep(plan)` then `completeStep(plan)` the
state has `activeStep = some plan` while the `plan` step's status is `done`,
so the claimed invariant fails on this reachable state. -/
theorem active_step_invariant_cex :
    checkActiveStep (runChat initialChatState
      [(0, ChatAction.START_STEP .plan none none),
       (1, ChatAction.COMPLETE_STEP .plan)]) = false := by
  decide

/-- C2 (amended): in every state reachable from the initial state by a trace in
which no `COMPLETE_STEP` or `FAIL_STEP` targets the id that is `activeStep` at
its dispatch, if `thinking.activeStep` is set then every step bearing that id
has status `active`. Dispatching `completeStep` on the active step itself
violates the invariant: it sets that step's status to `done` and records
`endedAt` while leaving `activeStep` unchanged. -/
theorem active_step_invariant_good_traces (acts : List (Nat × ChatAction))
    (h : goodTraceB initialChatState acts = true) :
    ActiveStepOk (runChat initialChatState acts) :=
  activeStepOk_runChat acts initialChatState
    ((checkActiveStep_iff initialChatState).mp (by decide)) h

/-- Witness for the amended C2 on a concrete good trace. -/
theorem active_step_invariant_good_traces_witness :
    goodTraceB initialChatState
        [(0, ChatAction.START_STEP .understand none none),
         (1, ChatAction.COMPLETE_STEP .plan),
         (2, ChatAction.START_STEP .plan none none)] = true
    ∧ ActiveStepOk (runChat initialChatState
        [(0, ChatAction.START_STEP .understand none none),
         (1, ChatAction.COMPLETE_STEP .plan),
         (2, ChatAction.START_STEP .plan none none)]) :=
  ⟨by decide, active_step_invariant_good_traces _ (by decide)⟩

/-- Reachable state with a terminal streaming session: `startStreaming` then a
final chunk carrying `done = true`. -/
def doneStreamState : ChatState :=
  runChat initialChatState
    [(0, ChatAction.START_STREAMING "m1"),
     (1, ChatAction.APPEND_CHUNK { id := "m1", delta := "a", done := some true })]

/-- C3 counterexample: `doneStreamState` has `done = true`, yet dispatching a
further `appendChunk` with nonempty delta (before any reset) changes the
streaming content. -/
theorem append_after_done_cex :
    doneStreamState.streaming.done = true
    ∧ (chatReducer 2 doneStreamState
        (ChatAction.APPEND_CHUNK { id := "m1", delta := "b" })).streaming.content
      ≠ doneStreamState.streaming.content := by
  decide

/-- C3 (amended): the reducer does not enforce the terminal-state invariant.
Dispatching `appendChunk` while `done = true` still appends the chunk's delta
to the streaming content; the no-append-after-done property is only a consumer
contract, not a guard in `chatReducer`. -/
theorem append_chunk_after_done_appends (t : Nat) (s : ChatState) (c : StreamChunk)
    (h : s.streaming.done = true) :
    (chatReducer t s (ChatAction.APPEND_CHUNK c)).streaming.content
      = s.streaming.content ++ c.delta := by
  simp [chatReducer]

/-- Witness for the amended C3 at the concrete terminal state. -/
theorem append_chunk_after_done_appends_witness :
    doneStreamState.streaming.done = true
    ∧ (chatReducer 2 doneStreamState
        (ChatAction.APPEND_CHUNK { id := "m1", delta := "b" })).streaming.content
      = doneStreamState.streaming.content ++ "b" :=
  ⟨by decide,
   append_chunk_after_done_appends 2 doneStreamState { id := "m1", delta := "b" } (by decide)⟩

/-- C10: dispatching `startStep` with id `tool` from the initial thinking state
sets `activeStep` to `tool` but leaves every step untouched (all still
`pending`), because the fixed default step list has only the five ids
`understand`, `plan`, `retrieve`, `compose`, `finalize` and no `tool` entry. -/
theorem start_step_tool_frame :
    ∀ now : Nat,
      (chatReducer now initialChatState
          (ChatAction.START_STEP ThoughtStepId.tool none none)).thinking.activeStep
        = some ThoughtStepId.tool
      ∧ (chatReducer now initialChatState
          (ChatAction.START_STEP ThoughtStepId.tool none none)).thinking.steps
        = initialChatState.thinking.steps
      ∧ (DEFAULT_THINKING_STEPS.map fun st => st.id)
        = [.understand, .plan, .retrieve, .compose, .finalize]
      ∧ DEFAULT_THINKING_STEPS.all (fun st => st.status == ThoughtStepStatus.pending) = true := by
  intro now
  refine ⟨rfl, ?_, by decide, by decide⟩
  simp [chatReducer, initialChatState, DEFAULT_THINKING_STEPS]

/-- JS `content.split(' ')` on a char list: split on each single space, keeping
empty fragments (accumulator carried in reverse). -/
def jsSplitAux : List Char → List Char → List String
  | acc, [] => [⟨acc.reverse⟩]
  | acc, c :: rest =>
    if c = ' ' then ⟨acc.reverse⟩ :: jsSplitAux [] rest
    else jsSplitAux (c :: acc) rest

/-- JS `content.split(' ')`. -/
def jsSplitSpaces (s : String) : List String := jsSplitAux [] s.data

/-- The chunk-emission loop of `useSimulatedStream.startSimulation`
(`sendNextChunk` in useStreamSSE): while the word index is in range, emit the
word (prefixed by a space unless it is the first) with `done = false`, then
advance; past the end, emit one final empty chunk with `done = true`. -/
def sendNextChunk (mid : String) (words : List String) (i : Nat) : List StreamChunk :=
  if h : i < words.length then
    { id := mid
      delta := if i = 0 then words[i] else " " ++ words[i]
      done := some false } :: sendNextChunk mid words (i + 1)
  else
    [{ id := mid, delta := "", done := some true }]
termination_by words.length - i

/-- All chunks emitted by `useSimulatedStream.startSimulation` for a content
string, message id and per-chunk delay (the delay only affects timing, never
the emitted chunk values). -/
def startSimulation (content mid : String) (chunkDelay : Nat) : List StreamChunk :=
  let words := jsSplitSpaces content
  let _ := chunkDelay
  sendNextChunk mid words 0

/-- Spec-side description of the simulated stream: one chunk per word, the
first with no separator, each subsequent word prefixed with exactly one space,
followed by a final empty-delta chunk with `done = true`, all with the id. -/
def specSimulatedChunks (mid : String) : List String → List StreamChunk
  | [] => [{ id := mid, delta := "", done := some true }]
  | w :: ws =>
    { id := mid, delta := w, done := some false }
      :: (ws.map fun w' => { id := mid, delta := " " ++ w', done := some false })
      ++ [{ id := mid, delta := "", done := some true }]

lemma sendNextChunk_past_end (mid : String) (words : List String) (i : Nat)
    (h : words.length ≤ i) :
    sendNextChunk mid words i = [{ id := mid, delta := "", done := some true }] := by
  unfold sendNextChunk
  rw [dif_neg (by omega)]

lemma sendNextChunk_tail (mid : String) (words : List String) :
    ∀ n i, words.length - i ≤ n → 0 < i →
      sendNextChunk mid words i
        = ((words.drop i).map fun w => { id := mid, delta := " " ++ w, done := some false })
          ++ [{ id := mid, delta := "", done := some true }] := by
  intro n
  induction n with
  | zero =>
    intro i hle _
    rw [sendNextChunk_past_end mid words i (by omega)]
    rw [List.drop_eq_nil_of_le (by omega)]
    simp
  | succ n ih =>
    intro i hle hpos
    by_cases h : i < words.length
    · unfold sendNextChunk
      rw [dif_pos h, if_neg (by omega)]
      rw [ih (i + 1) (by omega) (by omega), List.drop_eq_getElem_cons h,
        List.map_cons, List.cons_append]
    · rw [sendNextChunk_past_end mid words i (by omega)]
      rw [List.drop_eq_nil_of_le (by omega)]
      simp

lemma sendNextChunk_zero (mid : String) (words : List String) :
    sendNextChunk mid words 0 = specSimulatedChunks mid words := by
  cases words with
  | nil =>
    rw [sendNextChunk_past_end mid [] 0 (by simp)]
    rfl
  | cons w ws =>
    unfold sendNextChunk
    rw [dif_pos (by simp)]
    rw [if_pos rfl]
    rw [sendNextChunk_tail mid (w :: ws) (w :: ws).length 1 (by omega) (by omega)]
    simp [specSimulatedChunks]

/-- C4: the simulated stream source emits one chunk per word of the content
split on spaces (the first word with no separator, each subsequent word
prefixed with exactly one space) followed by one final empty-delta chunk with
`done = true`, all carrying the given message id; in particular for
`"hello world"` it emits exactly the 3 chunks
`{delta:"hello", done:false}`, `{delta:" world", done:false}`,
`{delta:"", done:true}`. -/
theorem simulated_stream_chunks :
    (∀ (content mid : String) (chunkDelay : Nat),
      startSimulation content mid chunkDelay = specSimulatedChunks mid (jsSplitSpaces content))
    ∧ startSimulation "hello world" "m1" 50
        = [{ id := "m1", delta := "hello", done := some false },
           { id := "m1", delta := " world", done := some false },
           { id := "m1", delta := "", done := some true }] := by
  have hgen : ∀ (content mid : String) (chunkDelay : Nat),
      startSimulation content mid chunkDelay = specSimulatedChunks mid (jsSplitSpaces content) :=
    fun content mid chunkDelay => sendNextChunk_zero mid (jsSplitSpaces content)
  refine ⟨hgen, ?_⟩
  rw [hgen]
  decide

/-- Hook-local state of `useStreamSSE` (`StreamState` in useStreamSSE). -/
structure SSEState where
  isStreaming : Bool
  error : Option String
  chunks : List StreamChunk
  content : String
  deriving DecidableEq, Repr

/-- One processed line of the network stream, after the parse step of
`useStreamSSE.startStream`: a line that parsed to a chunk, a malformed line
(logged and skipped), or the `data: [DONE]` sentinel. -/
inductive StreamEvent
  | chunkLine (c : StreamChunk)
  | malformedLine
  | doneSentinel
  deriving DecidableEq, Repr

/-- How the read loop of `startStream` ends when no early return happened:
the reader finishes, the request is aborted (`AbortError`), or another error
is thrown. -/
inductive StreamOutcome
  | completed
  | aborted
  | failed (msg : String)
  deriving DecidableEq, Repr

/-- State set by `startStream` before reading. -/
def initialSSEState : SSEState :=
  { isStreaming := true, error := none, chunks := [], content := "" }

/-- The line-processing loop of `startStream`. The `Bool` records whether the
loop returned early (on a `done` chunk or the `[DONE]` sentinel). -/
def processLines : SSEState → List StreamEvent → SSEState × Bool
  | st, [] => (st, false)
  | st, e :: rest =>
    match e with
    | .malformedLine => processLines st rest
    | .doneSentinel => ({ st with isStreaming := false }, true)
    | .chunkLine c =>
      let st' := { st with chunks := st.chunks ++ [c], content := st.content ++ c.delta }
      if c.done.getD false then ({ st' with isStreaming := false }, true)
      else processLines st' rest

/-- Final hook state of one `startStream` run: the processed lines, then —
only if no early return happened — the loop's outcome (normal completion, the
abort path's silent stop, or the catch branch for any other error). -/
def startStreamRun (events : List StreamEvent) (outcome : StreamOutcome) : SSEState :=
  match processLines initialSSEState events with
  | (st, true) => st
  | (st, false) =>
    match outcome with
    | .completed => { st with isStreaming := false }
    | .aborted => { st with isStreaming := false }
    | .failed msg => { st with isStreaming := false, error := some msg }

lemma processLines_error (events : List StreamEvent) :
    ∀ st : SSEState, (processLines st events).1.error = st.error := by
  induction events with
  | nil => intro st; rfl
  | cons e rest ih =>
    intro st
    cases e with
    | malformedLine => exact ih st
    | doneSentinel => rfl
    | chunkLine c =>
      simp only [processLines]
      by_cases h : c.done.getD false
      · rw [if_pos h]
      · rw [if_neg h]
        exact ih _

lemma processLines_early_not_streaming (events : List StreamEvent) :
    ∀ st : SSEState, (processLines st events).2 = true →
      (processLines st events).1.isStreaming = false := by
  induction events with
  | nil => intro st h; exact absurd h (by simp [processLines])
  | cons e rest ih =>
    intro st h
    cases e with
    | malformedLine => exact ih st h
    | doneSentinel => rfl
    | chunkLine c =>
      simp only [processLines] at h ⊢
      by_cases hd : c.done.getD false
      · rw [if_pos hd]
      · rw [if_neg hd] at h ⊢
        exact ih _ h

/-- C6: the abort path of an in-flight network stream leaves
`isStreaming = false` with `error` unset, whereas a network error other than a
user-initiated abort sets `error` to the failure message with
`isStreaming = false`, and the corresponding `errorStreaming` dispatch on the
chat reducer terminates the streaming state with `done = true` — so user
cancellation is distinguished from genuine failure. -/
theorem abort_vs_error_semantics :
    (∀ events : List StreamEvent,
      (startStreamRun events .aborted).isStreaming = false
      ∧ (startStreamRun events .aborted).error = none)
    ∧ (∀ (events : List StreamEvent) (msg : String),
        (processLines initialSSEState events).2 = false →
        (startStreamRun events (.failed msg)).error = some msg
        ∧ (startStreamRun events (.failed msg)).isStreaming = false)
    ∧ (∀ (t : Nat) (s : ChatState) (msg : String),
        (chatReducer t s (ChatAction.ERROR_STREAMING msg)).streaming.done = true
        ∧ (chatReducer t s (ChatAction.ERROR_STREAMING msg)).streaming.error = some msg
        ∧ (chatReducer t s (ChatAction.ERROR_STREAMING msg)).streaming.isStreaming = false) := by
  refine ⟨?_, ?_, ?_⟩
  · intro events
    unfold startStreamRun
    rcases hp : processLines initialSSEState events with ⟨st, early⟩
    have herr : st.error = none := by
      have := processLines_error events initialSSEState
      rw [hp] at this
      exact this
    cases early with
    | true =>
      have := processLines_early_not_streaming events initialSSEState
      rw [hp] at this
      exact ⟨this rfl, herr⟩
    | false => exact ⟨rfl, herr⟩
  · intro events msg hnoEarly
    unfold startStreamRun
    rcases hp : processLines initialSSEState events with ⟨st, early⟩
    rw [hp] at hnoEarly
    simp only at hnoEarly
    cases early with
    | true => exact absurd hnoEarly (by simp)
    | false => exact ⟨rfl, rfl⟩
  · intro t s msg
    exact ⟨rfl, rfl, rfl⟩

/-- Witness for C6 at a concrete stream failing after one ordinary chunk. -/
theorem abort_vs_error_semantics_witness :
    (processLines initialSSEState
        [StreamEvent.chunkLine { id := "m1", delta := "hi", done := some false }]).2 = false
    ∧ (startStreamRun
        [StreamEvent.chunkLine { id := "m1", delta := "hi", done := some false }]
        (.failed "network down")).error = some "network down"
    ∧ (startStreamRun
        [StreamEvent.chunkLine { id := "m1", delta := "hi", done := some false }]
        (.failed "network down")).isStreaming = false :=
  ⟨by decide,
   (abort_vs_error_semantics.2.1 _ "network down" (by decide)).1,
   (abort_vs_error_semantics.2.1 _ "network down" (by decide)).2⟩

/-- Message role (`Message.type` in ChatService). -/
inductive MsgType
  | user
  | assistant
  deriving DecidableEq, Repr

/-- A chat message (`Message` in ChatService). -/
structure Message where
  id : String
  type : MsgType
  content : String
  timestamp : Nat
  deriving DecidableEq, Repr

/-- Whitespace as matched by the JS `\s` class and `trim()` (ASCII part). -/
def isJsWs (c : Char) : Bool :=
  c = ' ' || c = '\t' || c = '\n' || c = '\r' || c = '\x0b' || c = '\x0c'

/-- JS `String.prototype.trim`: drop whitespace from both ends. -/
def jsTrim (l : List Char) : List Char :=
  ((l.dropWhile isJsWs).reverse.dropWhile isJsWs).reverse

/-- JS `replace(/\s+/g, ' ')`: each maximal whitespace run becomes one space.
The `Bool` tracks whether the previous character was part of a run. -/
def collapseWsAux : Bool → List Char → List Char
  | _, [] => []
  | prevWs, c :: rest =>
    if isJsWs c then
      if prevWs then collapseWsAux true rest
      else ' ' :: collapseWsAux true rest
    else c :: collapseWsAux false rest

/-- JS `replace(/\s+/g, ' ')` on a char list. -/
def collapseWs (l : List Char) : List Char := collapseWsAux false l

/-- The title text computed by `ChatService.generateChatTitle` from the first
user message's content: slice to 50 chars, trim, append `"..."` when the
content exceeded 50 chars, then collapse whitespace runs. -/
def titleCore (content : List Char) : List Char :=
  collapseWs
    (if 50 < content.length then jsTrim (content.take 50) ++ ['.', '.', '.']
     else jsTrim (content.take 50))

/-- Title derivation (`ChatService.generateChatTitle`): the computed title, or
`"New Chat"` when there is no user message or the title is empty (JS `||`). -/
def generateChatTitle (messages : List Message) : String :=
  match messages.find? (fun m => m.type == MsgType.user) with
  | none => "New Chat"
  | some firstUserMessage =>
    if (titleCore firstUserMessage.content.data).isEmpty then "New Chat"
    else ⟨titleCore firstUserMessage.content.data⟩

lemma collapseWsAux_length : ∀ (l : List Char) (b : Bool),
    (collapseWsAux b l).length ≤ l.length := by
  intro l
  induction l with
  | nil => intro b; simp [collapseWsAux]
  | cons c rest ih =>
    intro b
    simp only [collapseWsAux]
    by_cases h : isJsWs c
    · rw [if_pos h]
      cases b with
      | true =>
        rw [if_pos rfl]
        exact Nat.le_succ_of_le (ih true)
      | false =>
        rw [if_neg (Bool.false_ne_true)]
        simpa using ih true
    · rw [if_neg h]
      simpa using ih false

lemma collapseWsAux_dots : ∀ (l : List Char) (b : Bool),
    ∃ p : List Char, collapseWsAux b (l ++ ['.', '.', '.']) = p ++ ['.', '.', '.'] := by
  intro l
  induction l with
  | nil =>
    intro b
    refine ⟨[], ?_⟩
    simp [collapseWsAux, isJsWs]
  | cons c rest ih =>
    intro b
    simp only [List.cons_append, collapseWsAux]
    by_cases h : isJsWs c
    · rw [if_pos h]
      cases b with
      | true =>
        simpa using ih true
      | false =>
        obtain ⟨p, hp⟩ := ih true
        refine ⟨' ' :: p, ?_⟩
        rw [if_neg (Bool.false_ne_true)]
        simp only [List.append_eq, hp, List.cons_append]
    · rw [if_neg h]
      obtain ⟨p, hp⟩ := ih false
      exact ⟨c :: p, by simp only [List.append_eq, hp, List.cons_append]⟩

lemma dropWhile_length_le (p : Char → Bool) : ∀ l : List Char,
    (l.dropWhile p).length ≤ l.length := by
  intro l
  induction l with
  | nil => simp
  | cons c rest ih =>
    simp only [List.dropWhile]
    cases h : p c with
    | false => simp
    | true => simpa using Nat.le_succ_of_le ih

lemma jsTrim_length_le (l : List Char) : (jsTrim l).length ≤ l.length := by
  unfold jsTrim
  calc (((l.dropWhile isJsWs).reverse.dropWhile isJsWs).reverse).length
      = ((l.dropWhile isJsWs).reverse.dropWhile isJsWs).length := by simp
    _ ≤ (l.dropWhile isJsWs).reverse.length := dropWhile_length_le _ _
    _ = (l.dropWhile isJsWs).length := by simp
    _ ≤ l.length := dropWhile_length_le _ _

lemma titleCore_long (content : List Char) (h : 50 < content.length) :
    titleCore content = collapseWs (jsTrim (content.take 50) ++ ['.', '.', '.']) := by
  unfold titleCore
  rw [if_pos h]

/-- C7: on a message list whose first user message has exactly 80 characters,
`generateChatTitle` returns a title of length at most 53 ending in `"..."`;
on the empty message list it returns `"New Chat"`. -/
theorem chat_title_truncation :
    (∀ (msgs : List Message) (m : Message),
      msgs.find? (fun x => x.type == MsgType.user) = some m →
      m.content.data.length = 80 →
      (generateChatTitle msgs).data.length ≤ 53
      ∧ ∃ p : List Char, (generateChatTitle msgs).data = p ++ ['.', '.', '.'])
    ∧ generateChatTitle [] = "New Chat" := by
  constructor
  · intro msgs m hfind hlen
    have hgt : 50 < m.content.data.length := by omega
    have hcore := titleCore_long m.content.data hgt
    obtain ⟨p, hp⟩ := collapseWsAux_dots (jsTrim (m.content.data.take 50)) false
    have hp' : titleCore m.content.data = p ++ ['.', '.', '.'] := by
      rw [hcore]
      exact hp
    have hne : (titleCore m.content.data).isEmpty = false := by
      rw [hp']
      cases p <;> simp
    have htitle : generateChatTitle msgs = ⟨titleCore m.content.data⟩ := by
      unfold generateChatTitle
      rw [hfind]
      simp only [hne]
      rfl
    rw [htitle]
    constructor
    · show (titleCore m.content.data).length ≤ 53
      rw [hcore]
      have h1 : (jsTrim (m.content.data.take 50)).length ≤ 50 := by
        calc (jsTrim (m.content.data.take 50)).length
            ≤ (m.content.data.take 50).length := jsTrim_length_le _
          _ ≤ 50 := by simp
      calc (collapseWs (jsTrim (m.content.data.take 50) ++ ['.', '.', '.'])).length
          ≤ (jsTrim (m.content.data.take 50) ++ ['.', '.', '.']).length :=
            collapseWsAux_length _ _
        _ = (jsTrim (m.content.data.take 50)).length + 3 := by simp
        _ ≤ 53 := by omega
    · exact ⟨p, hp'⟩
  · rfl

/-- The concrete 80-character user message used as the C7 witness input. -/
def msgC7 : Message :=
  { id := "w1", type := MsgType.user,
    content := "aaaaaaaaaaaaaaaaaaaaaaaaaaaaaaaaaaaaaaaaaaaaaaaaaaaaaaaaaaaaaaaaaaaaaaaaaaaaaaaa",
    timestamp := 0 }

/-- Witness for C7 at a concrete 80-character first user message. -/
theorem chat_title_truncation_witness :
    (generateChatTitle [msgC7]).data.length ≤ 53
    ∧ ∃ p : List Char, (generateChatTitle [msgC7]).data = p ++ ['.', '.', '.'] :=
  chat_title_truncation.1 [msgC7] msgC7 (by decide) (by decide)

/-- A persisted chat session (`ChatSession` in ChatService). -/
structure ChatSession where
  id : String
  title : String
  lastMessage : String
  timestamp : Nat
  messageCount : Nat
  messages : List Message
  deriving DecidableEq, Repr

/-- The standard base64 alphabet used by `btoa`. -/
def base64Chars : List Char :=
  "ABCDEFGHIJKLMNOPQRSTUVWXYZabcdefghijklmnopqrstuvwxyz0123456789+/".data

/-- The base64 digit for a 6-bit value. -/
def b64Char (n : Nat) : Char := base64Chars.getD n 'A'

/-- Base64 encoding of a byte list, three bytes to four digits, padded
with `=`. -/
def btoaBytes : List Nat → List Char
  | [] => []
  | [b1] => [b64Char (b1 / 4), b64Char (b1 % 4 * 16), '=', '=']
  | [b1, b2] =>
    [b64Char (b1 / 4), b64Char (b1 % 4 * 16 + b2 / 16), b64Char (b2 % 16 * 4), '=']
  | b1 :: b2 :: b3 :: rest =>
    b64Char (b1 / 4) :: b64Char (b1 % 4 * 16 + b2 / 16)
      :: b64Char (b2 % 16 * 4 + b3 / 64) :: b64Char (b3 % 64) :: btoaBytes rest

/-- JS `btoa` on a string of char codes at most 255. -/
def btoa (s : String) : String := ⟨btoaBytes (s.data.map Char.toNat)⟩

/-- Serialization of a message type (template literal `${msg.type}`). -/
def typeStr : MsgType → String
  | .user => "user"
  | .assistant => "assistant"

/-- Content hash for deduplication (`ChatService.generateContentHash`):
base64 of the joined `type:content` pairs, truncated to 16 characters. -/
def generateContentHash (messages : List Message) : String :=
  ⟨(btoa (String.intercalate "|"
      (messages.map fun m => typeStr m.type ++ ":" ++ m.content))).data.take 16⟩

/-- JS `content.slice(0, 100) + (content.length > 100 ? '...' : '')`. -/
def lastMessageTrunc (content : String) : String :=
  ⟨content.data.take 100⟩ ++ (if 100 < content.data.length then "..." else "")

/-- In-place update of an existing session on a duplicate save
(the mutation of `existingSession` in `ChatService.saveChatSession`). -/
def mkUpdatedSession (messages : List Message) (lastMessage : Message) (now : Nat)
    (s : ChatSession) : ChatSession :=
  { s with
    timestamp := now
    messageCount := messages.length
    messages := messages
    lastMessage := lastMessageTrunc lastMessage.content }

/-- The `sessions.find` plus in-place mutation of `saveChatSession`: update the
first session whose content hash matches, returning the new list and the
updated session; `none` when no session matches. -/
def updateExisting (hash : String) (upd : ChatSession → ChatSession) :
    List ChatSession → Option (List ChatSession × ChatSession)
  | [] => none
  | s :: rest =>
    if generateContentHash s.messages == hash then some (upd s :: rest, upd s)
    else (updateExisting hash upd rest).map fun p => (s :: p.1, p.2)

/-- The fresh session object built by `ChatService.saveChatSession` when no
existing session matches the content hash. -/
def mkNewSession (messages : List Message) (lastMessage : Message)
    (newId : String) (now : Nat) : ChatSession :=
  { id := newId
    title := generateChatTitle messages
    lastMessage := lastMessageTrunc lastMessage.content
    timestamp := now
    messageCount := messages.length
    messages := messages }

/-- `ChatService.saveChatSession`: `none` models the throw on an empty message
list; otherwise either the first content-hash match is updated in place, or a
new session is created and unshifted. Returns the stored list and the
returned session. -/
def saveChatSession (sessions : List ChatSession) (messages : List Message)
    (newId : String) (now : Nat) : Option (List ChatSession × ChatSession) :=
  match messages.getLast? with
  | none => none
  | some lastMessage =>
    match updateExisting (generateContentHash messages)
        (mkUpdatedSession messages lastMessage now) sessions with
    | some result => some result
    | none => some (mkNewSession messages lastMessage newId now :: sessions,
                    mkNewSession messages lastMessage newId now)

lemma generateContentHash_congr (msgs1 msgs2 : List Message)
    (h : msgs1.map (fun m => (m.type, m.content)) = msgs2.map (fun m => (m.type, m.content))) :
    generateContentHash msgs1 = generateContentHash msgs2 := by
  unfold generateContentHash
  have h1 : msgs1.map (fun m => typeStr m.type ++ ":" ++ m.content)
      = (msgs1.map (fun m => (m.type, m.content))).map (fun p => typeStr p.1 ++ ":" ++ p.2) := by
    rw [List.map_map]
    rfl
  have h2 : msgs2.map (fun m => typeStr m.type ++ ":" ++ m.content)
      = (msgs2.map (fun m => (m.type, m.content))).map (fun p => typeStr p.1 ++ ":" ++ p.2) := by
    rw [List.map_map]
    rfl
  rw [h1, h2, h]

lemma updateExisting_some (hash : String) (upd : ChatSession → ChatSession) :
    ∀ (l : List ChatSession) (l' : List ChatSession) (u : ChatSession),
      updateExisting hash upd l = some (l', u) →
      ∃ pre s post, l = pre ++ s :: post
        ∧ (∀ x ∈ pre, (generateContentHash x.messages == hash) = false)
        ∧ (generateContentHash s.messages == hash) = true
        ∧ l' = pre ++ upd s :: post ∧ u = upd s := by
  intro l
  induction l with
  | nil => intro l' u h; exact absurd h (by simp [updateExisting])
  | cons s rest ih =>
    intro l' u h
    simp only [updateExisting] at h
    by_cases hc : (generateContentHash s.messages == hash) = true
    · rw [if_pos hc] at h
      injection h with h1
      refine ⟨[], s, rest, rfl, by simp, hc, ?_, ?_⟩
      · simpa using (congrArg Prod.fst h1).symm
      · simpa using (congrArg Prod.snd h1).symm
    · rw [if_neg hc] at h
      rcases Option.map_eq_some'.mp h with ⟨⟨l'', u''⟩, hrec, heq⟩
      rcases ih l'' u'' hrec with ⟨pre, s', post, hdec, hpre, hs', hl'', hu''⟩
      refine ⟨s :: pre, s', post, by rw [hdec]; rfl, ?_, hs', ?_, ?_⟩
      · intro x hx
        rcases List.mem_cons.mp hx with hxs | hxpre
        · rw [hxs]
          simpa using hc
        · exact hpre x hxpre
      · have h1 : s :: l'' = l' := congrArg Prod.fst heq
        rw [← h1, hl'']
        rfl
      · have h2 : u'' = u := congrArg Prod.snd heq
        rw [← h2, hu'']

lemma updateExisting_found (hash : String) (upd : ChatSession → ChatSession) :
    ∀ (pre : List ChatSession) (s : ChatSession) (post : List ChatSession),
      (∀ x ∈ pre, (generateContentHash x.messages == hash) = false) →
      (generateContentHash s.messages == hash) = true →
      updateExisting hash upd (pre ++ s :: post) = some (pre ++ upd s :: post, upd s) := by
  intro pre
  induction pre with
  | nil =>
    intro s post _ hs
    simp only [List.nil_append, updateExisting]
    rw [if_pos hs]
  | cons x pre' ih =>
    intro s post hpre hs
    have hx : (generateContentHash x.messages == hash) = false :=
      hpre x (List.mem_cons_self x pre')
    simp only [List.cons_append, updateExisting]
    rw [if_neg (by rw [hx]; exact Bool.false_ne_true)]
    simp only [List.append_eq]
    rw [ih s post (fun y hy => hpre y (List.mem_cons_of_mem x hy)) hs]
    rfl

/-- C5: saving a non-empty message list twice, with byte-identical type and
content of every message, updates the stored session in place: the stored
session count after the second save equals the count after the first, and the
returned session keeps the same id. -/
theorem save_twice_updates_in_place
    (sessions : List ChatSession) (msgs1 msgs2 : List Message)
    (id1 id2 : String) (t1 t2 : Nat)
    (hne : msgs1 ≠ [])
    (hsame : msgs1.map (fun m => (m.type, m.content))
           = msgs2.map (fun m => (m.type, m.content))) :
    ∃ l1 s1 l2 s2,
      saveChatSession sessions msgs1 id1 t1 = some (l1, s1)
      ∧ saveChatSession l1 msgs2 id2 t2 = some (l2, s2)
      ∧ l2.length = l1.length ∧ s2.id = s1.id := by
  have hne2 : msgs2 ≠ [] := by
    intro h
    rw [h] at hsame
    simp only [List.map_nil, List.map_eq_nil_iff] at hsame
    exact hne hsame
  have hL1 := List.getLast?_eq_getLast_of_ne_nil hne
  have hL2 := List.getLast?_eq_getLast_of_ne_nil hne2
  have hhash : generateContentHash msgs2 = generateContentHash msgs1 :=
    generateContentHash_congr msgs2 msgs1 hsame.symm
  cases hu : updateExisting (generateContentHash msgs1)
      (mkUpdatedSession msgs1 (msgs1.getLast hne) t1) sessions with
  | none =>
    refine ⟨mkNewSession msgs1 (msgs1.getLast hne) id1 t1 :: sessions,
            mkNewSession msgs1 (msgs1.getLast hne) id1 t1,
            mkUpdatedSession msgs2 (msgs2.getLast hne2) t2
                (mkNewSession msgs1 (msgs1.getLast hne) id1 t1) :: sessions,
            mkUpdatedSession msgs2 (msgs2.getLast hne2) t2
                (mkNewSession msgs1 (msgs1.getLast hne) id1 t1),
            ?_, ?_, by simp, rfl⟩
    · simp only [saveChatSession, hL1, hu]
    · simp only [saveChatSession, hL2, updateExisting]
      have hcond : (generateContentHash
          (mkNewSession msgs1 (msgs1.getLast hne) id1 t1).messages
            == generateContentHash msgs2) = true := by
        show (generateContentHash msgs1 == generateContentHash msgs2) = true
        rw [hhash]
        exact beq_self_eq_true _
      rw [if_pos hcond]
  | some p =>
    obtain ⟨l1, s1⟩ := p
    obtain ⟨pre, s, post, hdec, hpre, hs, hl1, hs1⟩ :=
      updateExisting_some (generateContentHash msgs1)
        (mkUpdatedSession msgs1 (msgs1.getLast hne) t1) sessions l1 s1 hu
    refine ⟨l1, s1,
            pre ++ mkUpdatedSession msgs2 (msgs2.getLast hne2) t2
                (mkUpdatedSession msgs1 (msgs1.getLast hne) t1 s) :: post,
            mkUpdatedSession msgs2 (msgs2.getLast hne2) t2
                (mkUpdatedSession msgs1 (msgs1.getLast hne) t1 s),
            ?_, ?_, ?_, ?_⟩
    · simp only [saveChatSession, hL1, hu]
    · have hfound := updateExisting_found (generateContentHash msgs2)
        (mkUpdatedSession msgs2 (msgs2.getLast hne2) t2)
        pre (mkUpdatedSession msgs1 (msgs1.getLast hne) t1 s) post
        (fun x hx => by rw [hhash]; exact hpre x hx)
        (by show (generateContentHash msgs1 == generateContentHash msgs2) = true
            rw [hhash]
            exact beq_self_eq_true _)
      rw [← hl1] at hfound
      simp only [saveChatSession, hL2, hfound]
    · rw [hl1]
      simp
    · rw [hs1]
      rfl

/-- First message list of the C5 witness. -/
def msgsC5a : List Message := [{ id := "x", type := MsgType.user, content := "hi", timestamp := 0 }]

/-- Second message list of the C5 witness: same type and content, different
message id and timestamp. -/
def msgsC5b : List Message := [{ id := "y", type := MsgType.user, content := "hi", timestamp := 7 }]

/-- Witness for C5 at concrete message lists. -/
theorem save_twice_updates_in_place_witness :
    ∃ l1 s1 l2 s2,
      saveChatSession [] msgsC5a "id1" 0 = some (l1, s1)
      ∧ saveChatSession l1 msgsC5b "id2" 1 = some (l2, s2)
      ∧ l2.length = l1.length ∧ s2.id = s1.id :=
  save_twice_updates_in_place [] msgsC5a msgsC5b "id1" "id2" 0 1 (by decide) (by decide)

/-- First message list of the C9 hash collision. -/
def msgsC9a : List Message :=
  [{ id := "a", type := MsgType.user, content := "AAAAAAAx", timestamp := 0 }]

/-- Second message list of the C9 hash collision: the serialized strings
`"user:AAAAAAAx"` and `"user:AAAAAAAy"` differ only from byte 13 on, so the
first 16 base64 characters (the first 12 bytes) coincide. -/
def msgsC9b : List Message :=
  [{ id := "b", type := MsgType.user, content := "AAAAAAAy", timestamp := 0 }]

/-- Result of saving the first C9 list into an empty store. -/
def c9FirstSave : Option (List ChatSession × ChatSession) :=
  saveChatSession [] msgsC9a "id1" 0

/-- Result of then saving the second C9 list into the resulting store. -/
def c9SecondSave : Option (List ChatSession × ChatSession) :=
  match c9FirstSave with
  | some (l1, _) => saveChatSession l1 msgsC9b "id2" 1
  | none => none

/-- C9: two message lists that differ in content receive the same 16-character
content hash (base64 keeps only the first 12 bytes of the serialization), so
the second `saveChatSession` updates the session stored for the first list in
place — same count and session id, messages overwritten — instead of creating
a new session. -/
theorem content_hash_collision_overwrites :
    (msgsC9a.map fun m => m.content) ≠ (msgsC9b.map fun m => m.content)
    ∧ generateContentHash msgsC9a = generateContentHash msgsC9b
    ∧ (c9FirstSave.map fun p => (p.1.length, p.2.id)) = some (1, "id1")
    ∧ (c9SecondSave.map fun p => (p.1.length, p.2.id, p.2.messages))
        = some (1, "id1", msgsC9b) := by
  exact ⟨by decide, by decide, by decide, by decide⟩

/-- Hook-local state of `useIncrementalTyping` in useTypingAnimation: the
internal buffer ref, the visible text, the typing flag, the pending timeout
(delay value, `none` when no timer is scheduled) and the last-flush time. -/
structure TypingState where
  buffer : String
  displayedText : String
  isTyping : Bool
  timer : Option ℚ
  lastUpdate : ℚ
  deriving DecidableEq, Repr

/-- Initial hook state of `useIncrementalTyping`. -/
def initialTypingState : TypingState :=
  { buffer := "", displayedText := "", isTyping := false, timer := none, lastUpdate := 0 }

/-- `useIncrementalTyping.appendText`: always append to the internal buffer;
with animations disabled or reduced motion preferred, show the buffer
immediately; otherwise flush if at least `1000 / speed` ms have elapsed since
the last flush, else (re)schedule a single pending timer for the remaining
wait. Times are rationals standing for millisecond values. -/
def appendText (speed : ℚ) (enabled reducedMotion : Bool) (st : TypingState)
    (newText : String) (now : ℚ) : TypingState :=
  let buffer := st.buffer ++ newText
  if !enabled || reducedMotion then
    { st with buffer := buffer, displayedText := buffer }
  else
    let minInterval := 1000 / speed
    if minInterval ≤ now - st.lastUpdate then
      { st with buffer := buffer, displayedText := buffer, lastUpdate := now }
    else
      { st with
        buffer := buffer
        isTyping := true
        timer := some (minInterval - (now - st.lastUpdate)) }

lemma appendText_reduced_motion (speed : ℚ) (enabled : Bool) (st : TypingState)
    (newText : String) (now : ℚ) :
    appendText speed enabled true st newText now
      = { st with buffer := st.buffer ++ newText,
                  displayedText := st.buffer ++ newText } := by
  unfold appendText
  rw [if_pos (by simp)]

lemma foldl_appendText_reduced_motion (speed : ℚ) (enabled : Bool) :
    ∀ (appends : List (String × ℚ)) (st : TypingState),
      st.displayedText = st.buffer →
      st.timer = none →
      (appends.foldl (fun acc p => appendText speed enabled true acc p.1 p.2) st).displayedText
        = st.buffer ++ String.join (appends.map fun p => p.1)
      ∧ (appends.foldl (fun acc p => appendText speed enabled true acc p.1 p.2) st).timer
        = none := by
  intro appends
  induction appends with
  | nil =>
    intro st hdisp htimer
    refine ⟨?_, htimer⟩
    show st.displayedText = st.buffer ++ String.join []
    rw [hdisp]
    simp [String.join]
  | cons p rest ih =>
    intro st _ htimer
    rw [List.foldl_cons, appendText_reduced_motion]
    have hrec := ih { st with buffer := st.buffer ++ p.1,
                              displayedText := st.buffer ++ p.1 } rfl htimer
    constructor
    · rw [hrec.1, List.map_cons, string_join_cons, String.append_assoc]
    · exact hrec.2

/-- C8: when the reduced-motion preference is detected, throttling is bypassed
entirely: after any sequence of `appendText` calls from the initial state, the
visible `displayedText` equals the concatenation of all appended text
immediately, and no pending timer is scheduled. -/
theorem reduced_motion_bypasses_throttling (speed : ℚ) (enabled : Bool)
    (appends : List (String × ℚ)) :
    (appends.foldl (fun acc p => appendText speed enabled true acc p.1 p.2)
        initialTypingState).displayedText
      = String.join (appends.map fun p => p.1)
    ∧ (appends.foldl (fun acc p => appendText speed enabled true acc p.1 p.2)
        initialTypingState).timer = none := by
  have h := foldl_appendText_reduced_motion speed enabled appends initialTypingState rfl rfl
  refine ⟨?_, h.2⟩
  rw [h.1]
  show ("" : String) ++ _ = _
  simp
